import Mathlib

/-!
# Verification of the dynamic-diffuser control core

Shallow embedding of the decision-and-learning loop of the repository:
the magnet controller (`commander.py`), the control environment
(`diffuser_env.py`) and the DQN agent (`model.py`), together with proofs
of the specified properties.

Conventions of the embedding:
* Python ints are `ℤ` (Python `%` on a positive modulus agrees with `Int.emod`).
* numpy float values are `ℝ` for the reward computation (real arithmetic),
  `ℚ` for network scores and parameters (only order and affine operations
  are used there); `-inf` produced by masking is `⊥` of `WithBot ℚ`.
* The magnet-state array of length 9 is a function `ℕ → ℤ` (only indices
  0..8 are ever read or written); the boolean mask array of length 19 is a
  function `ℕ → Bool` read at indices 0..18.
* Stateful methods become functions returning the new state together with
  the observable effect (commands issued, bytes written).
-/

namespace Diffuser

/-! ## commander.py : MagnetController -/

/-- Constant `MagnetController.ACTION_IN` (retract). -/
def ACTION_IN : ℤ := 0

/-- Constant `MagnetController.ACTION_OUT` (extend). -/
def ACTION_OUT : ℤ := 1

/-- Protocol offset `MagnetController.OFFSET`. -/
def OFFSET : ℤ := 0x0A

/-- Embedding of `MagnetController._send_command`: given the connection
flag, a magnet id and an action, it returns
`(success, bytes written to the serial line)`.  Mirrors the source: if the
controller is not connected, or the magnet id is outside 0..8, or the
action is neither `ACTION_IN` nor `ACTION_OUT`, it fails before building
the command and writes nothing; otherwise it writes the 4-byte frame
`[0xAA, 0x55, magnet_id + OFFSET, action + OFFSET]`. -/
def sendCommand (connected : Bool) (magnet_id action : ℤ) : Bool × List ℤ :=
  if ¬ connected then (false, [])
  else if ¬ (0 ≤ magnet_id ∧ magnet_id ≤ 8) then (false, [])
  else if ¬ (action = ACTION_IN ∨ action = ACTION_OUT) then (false, [])
  else (true, [0xAA, 0x55, magnet_id + OFFSET, action + OFFSET])

/-! ## diffuser_env.py : DiffuserEnv actuator state machine -/

/-- The magnet state vector after `reset()`: `self.magnet_states.fill(0)`. -/
def resetState : ℕ → ℤ := fun _ => 0

/-- Embedding of `DiffuserEnv._take_action` on a magnet-state vector.
Returns the new
state vector together with the list of `(magnet_id, move)` commands passed
to `MagnetController._send_command`.  Mirrors the source: action 18 is a
no-op; otherwise `magnet_id = action % 9` (Python modulo on the positive
modulus 9, i.e. `Int.emod`) and `move = ACTION_OUT if action >= 9 else
ACTION_IN`; the command is issued and the state entry overwritten only when
the target differs from the recorded state. -/
def takeAction (s : ℕ → ℤ) (action : ℤ) : (ℕ → ℤ) × List (ℤ × ℤ) :=
  if action = 18 then (s, [])
  else
    let magnet_id : ℤ := action % 9
    let move : ℤ := if 9 ≤ action then ACTION_OUT else ACTION_IN
    if s magnet_id.toNat ≠ move then
      (Function.update s magnet_id.toNat move, [(magnet_id, move)])
    else (s, [])

/-- Embedding of `DiffuserEnv.action_masks` as a function of the
magnet-state vector.
The source builds a 19-entry boolean array, all true, sets entry 18 to
false, and then for each magnet `i` in 0..8 sets entry `i` to false when
the magnet is `IN` (state 0) and entry `i + 9` to false otherwise.  Since
the written indices are pairwise distinct this is the pointwise function
below (entries beyond 18 are never read; we let them be `false`). -/
def actionMasks (s : ℕ → ℤ) : ℕ → Bool := fun j =>
  if j < 9 then (if s j = 0 then false else true)
  else if j < 18 then (if s (j - 9) = 0 then true else false)
  else false

/-- The number of `true` entries among the 19 mask slots. -/
def maskTrueCount (m : ℕ → Bool) : ℕ :=
  ((Finset.range 19).filter (fun j => m j = true)).card

/-- Magnet-state vectors reachable by any sequence of `reset()` and
`step(a)` calls with legal actions (actions whose mask entry is true).
`reset()` drives the state to `resetState` from anywhere, so every
reachable state is `resetState` followed by legal steps. -/
inductive Reachable : (ℕ → ℤ) → Prop where
  | reset : Reachable resetState
  | step (s : ℕ → ℤ) (a : ℕ) (hs : Reachable s)
      (ha : actionMasks s a = true) :
      Reachable (takeAction s (a : ℤ)).1

/-- Reachable states are vectors of 0/1 at every magnet index. -/
theorem Reachable.zero_or_one {s : ℕ → ℤ} (h : Reachable s) :
    ∀ i, s i = 0 ∨ s i = 1 := by
  induction h with
  | reset => intro i; left; rfl
  | step s a hs ha ih =>
    intro i
    unfold takeAction
    split
    · exact ih i
    · dsimp only
      split
      all_goals
        split
        · dsimp only
          rcases eq_or_ne i ((a : ℤ) % 9).toNat with rfl | hne
          · rw [Function.update_same]
            simp [ACTION_IN, ACTION_OUT]
          · rw [Function.update_noteq hne]
            exact ih i
        · exact ih i

/-- For every state vector (not only reachable ones) the mask has exactly
nine true entries: entry 18 is false and, for each magnet, exactly one of
its two entries is true. -/
theorem maskTrueCount_actionMasks (s : ℕ → ℤ) :
    maskTrueCount (actionMasks s) = 9 := by
  unfold maskTrueCount
  rw [Finset.card_filter]
  rw [show (19 : ℕ) = 18 + 1 from rfl, Finset.sum_range_succ,
    show (18 : ℕ) = 9 + 9 from rfl, Finset.sum_range_add]
  have h18 : actionMasks s 18 = false := rfl
  rw [h18, ← Finset.sum_add_distrib]
  have key : ∀ j ∈ Finset.range 9,
      ((if actionMasks s j = true then 1 else 0) +
        (if actionMasks s (9 + j) = true then 1 else 0)) = 1 := by
    intro j hj
    have hj9 : j < 9 := Finset.mem_range.mp hj
    have hn : ¬ (9 + j < 9) := by omega
    have hlt : 9 + j < 18 := by omega
    have hsub : 9 + j - 9 = j := by omega
    unfold actionMasks
    rcases em (s j = 0) with h | h <;> simp [hj9, hn, hlt, hsub, h]
  rw [Finset.sum_congr rfl key]
  simp

/-- The retract entry `i` (for `i < 9`) is true exactly when magnet `i` is
not in the retracted state. -/
theorem actionMasks_retract (s : ℕ → ℤ) (i : ℕ) (hi : i < 9) :
    (actionMasks s i = true ↔ s i ≠ 0) := by
  unfold actionMasks
  rcases em (s i = 0) with h | h <;> simp [hi, h]

/-- The extend entry `i + 9` (for `i < 9`) is true exactly when magnet `i`
is in the retracted state. -/
theorem actionMasks_extend (s : ℕ → ℤ) (i : ℕ) (hi : i < 9) :
    (actionMasks s (i + 9) = true ↔ s i = 0) := by
  have hn : ¬ (i + 9 < 9) := by omega
  have hlt : i + 9 < 18 := by omega
  have hsub : i + 9 - 9 = i := by omega
  unfold actionMasks
  rcases em (s i = 0) with h | h <;> simp [hn, hlt, hsub, h]

/-- C1: for every `ActuatorState` reachable by `reset()`/`step(a)` with
legal actions, the legality mask has exactly `N = 9` true entries, the
no-op entry 18 is false, and for each actuator exactly one direction is
legal, namely the one that changes its state: retract `i` is legal iff the
magnet is extended (state 1), extend `i + 9` is legal iff it is retracted
(state 0). -/
theorem c1_reachable_mask_invariant (s : ℕ → ℤ) (h : Reachable s) :
    maskTrueCount (actionMasks s) = 9 ∧
    actionMasks s 18 = false ∧
    ∀ i : Fin 9,
      (actionMasks s i.val = true ↔ s i.val = 1) ∧
      (actionMasks s (i.val + 9) = true ↔ s i.val = 0) ∧
      ¬ (actionMasks s i.val = true ↔ actionMasks s (i.val + 9) = true) := by
  refine ⟨maskTrueCount_actionMasks s, rfl, fun i => ?_⟩
  have h01 := h.zero_or_one i.val
  have hr := actionMasks_retract s i.val i.isLt
  have he := actionMasks_extend s i.val i.isLt
  constructor
  · rw [hr]
    rcases h01 with h0 | h1
    · constructor
      · intro hne; exact absurd h0 hne
      · intro h1'; omega
    · constructor
      · intro _; exact h1
      · intro _; omega
  · refine ⟨he, ?_⟩
    rw [hr, he]
    rcases h01 with h0 | h1
    · simp [h0]
    · simp [h1]

/-- Witness for C1 at the concrete reset state. -/
theorem c1_reachable_mask_invariant_witness :
    maskTrueCount (actionMasks resetState) = 9 ∧
    actionMasks resetState 18 = false ∧
    ∀ i : Fin 9,
      (actionMasks resetState i.val = true ↔ resetState i.val = 1) ∧
      (actionMasks resetState (i.val + 9) = true ↔ resetState i.val = 0) ∧
      ¬ (actionMasks resetState i.val = true ↔
          actionMasks resetState (i.val + 9) = true) :=
  c1_reachable_mask_invariant resetState Reachable.reset

/-- C9: from the reset state (all nine actuators retracted — mask has the
nine extend entries 9..17 true and nothing else), the action 9 that
extends actuator 0 issues exactly the command `(0, ACTION_OUT)`, leaves
actuator 0 extended and every other actuator retracted, and the new mask
differs from the old exactly at entries 9 (now illegal) and 0 (now
legal). -/
theorem c9_step_extends_actuator0 :
    (∀ j : Fin 19, actionMasks resetState j.val =
      decide (9 ≤ j.val ∧ j.val < 18)) ∧
    (takeAction resetState 9).2 = [(0, ACTION_OUT)] ∧
    (∀ i : Fin 9, (takeAction resetState 9).1 i.val =
      (if i.val = 0 then 1 else 0)) ∧
    (∀ j : Fin 19, actionMasks (takeAction resetState 9).1 j.val =
      (if j.val = 9 then false else if j.val = 0 then true
        else actionMasks resetState j.val)) := by
  decide

/-- C3 counterexample: the out-of-range action 19 is *not* rejected by
`_take_action`.  From the reset state it decodes to magnet `19 % 9 = 1`,
direction `ACTION_OUT`, issues that command, mutates the state entry for
magnet 1, and the connected link happily transmits the 4 bytes. -/
theorem c3_counterexample_action19_not_rejected :
    (takeAction resetState 19).2 = [(1, ACTION_OUT)] ∧
    (takeAction resetState 19).1 1 = 1 ∧
    sendCommand true 1 ACTION_OUT = (true, [0xAA, 0x55, 0x0B, 0x0B]) := by
  decide

/-- C3 amended: validation lives only in the actuator link.
`MagnetController._send_command` rejects any magnet id outside 0..8 or any
direction outside `{ACTION_IN, ACTION_OUT}` before building the frame, so
no byte is sent; `_take_action` itself performs no validation, but every
command it ever issues is decoded as `(action % 9, direction)`, which is
always in range and is therefore always accepted (and transmitted) by a
connected link. -/
theorem c3_amended_link_validates (connected : Bool) (magnet_id act : ℤ)
    (s : ℕ → ℤ) (a : ℤ)
    (hinvalid : ¬ (0 ≤ magnet_id ∧ magnet_id ≤ 8 ∧
      (act = ACTION_IN ∨ act = ACTION_OUT))) :
    sendCommand connected magnet_id act = (false, []) ∧
    ∀ p ∈ (takeAction s a).2,
      (0 ≤ p.1 ∧ p.1 ≤ 8 ∧ (p.2 = ACTION_IN ∨ p.2 = ACTION_OUT)) ∧
      sendCommand true p.1 p.2 =
        (true, [0xAA, 0x55, p.1 + OFFSET, p.2 + OFFSET]) := by
  constructor
  · unfold sendCommand
    rcases connected with _ | _
    · simp
    · by_cases hid : (0 ≤ magnet_id ∧ magnet_id ≤ 8)
      · have hact : ¬ (act = ACTION_IN ∨ act = ACTION_OUT) := by tauto
        simp [hid, hact]
      · simp [hid]
  · intro p hp
    have h0 : (0 : ℤ) ≤ a % 9 := Int.emod_nonneg a (by norm_num)
    have h9 : a % 9 < 9 := Int.emod_lt_of_pos a (by norm_num)
    have h8 : (a % 9 : ℤ) ≤ 8 := by omega
    have hcmd : p = ((a % 9 : ℤ), if 9 ≤ a then ACTION_OUT else ACTION_IN) := by
      unfold takeAction at hp
      split at hp
      · simp at hp
      · dsimp only at hp
        rcases le_or_lt 9 a with h | h
        · rw [if_pos h] at hp ⊢
          split at hp
          · simpa using hp
          · simp at hp
        · rw [if_neg (not_le.mpr h)] at hp ⊢
          split at hp
          · simpa using hp
          · simp at hp
    subst hcmd
    rcases le_or_lt 9 a with h | h
    · rw [if_pos h]
      refine ⟨⟨h0, h8, Or.inr rfl⟩, ?_⟩
      unfold sendCommand
      simp [h0, h8, ACTION_IN, ACTION_OUT]
    · rw [if_neg (by omega)]
      refine ⟨⟨h0, h8, Or.inl rfl⟩, ?_⟩
      unfold sendCommand
      simp [h0, h8, ACTION_IN, ACTION_OUT]

/-- Witness for the amended C3 at a concrete invalid input (magnet id 9). -/
theorem c3_amended_link_validates_witness :
    sendCommand true 9 ACTION_IN = (false, []) ∧
    ∀ p ∈ (takeAction resetState 19).2,
      (0 ≤ p.1 ∧ p.1 ≤ 8 ∧ (p.2 = ACTION_IN ∨ p.2 = ACTION_OUT)) ∧
      sendCommand true p.1 p.2 =
        (true, [0xAA, 0x55, p.1 + OFFSET, p.2 + OFFSET]) :=
  c3_amended_link_validates true 9 ACTION_IN resetState 19 (by decide)

/-! ## model.py : ReplayBuffer -/

/-- One stored transition `(state, action, reward, next_state, done)`;
`state` and `next_state` are the flattened (`np.ravel`) observations. -/
abbrev Transition := List ℚ × ℤ × ℚ × List ℚ × Bool

/-- Appending to a `collections.deque(maxlen := capacity)`: the new element
goes to the right and, if the deque would exceed `capacity`, elements are
discarded from the left (oldest first).  The buffer is the list of live
elements, oldest first. -/
def dequeAppend (capacity : ℕ) (buffer : List α) (x : α) : List α :=
  (buffer ++ [x]).drop ((buffer.length + 1) - capacity)

/-- Embedding of `ReplayBuffer.push`: stores the (already flattened)
transition tuple in
the bounded deque. -/
def ReplayBuffer.push (capacity : ℕ) (buffer : List Transition)
    (state : List ℚ) (action : ℤ) (reward : ℚ) (next_state : List ℚ)
    (done : Bool) : List Transition :=
  dequeAppend capacity buffer (state, action, reward, next_state, done)

/-- A whole sequence of `push` calls, in order. -/
def pushAll (capacity : ℕ) (buffer : List Transition)
    (ts : List Transition) : List Transition :=
  ts.foldl (fun b t =>
    ReplayBuffer.push capacity b t.1 t.2.1 t.2.2.1 t.2.2.2.1 t.2.2.2.2) buffer

theorem length_dequeAppend (capacity : ℕ) (buffer : List α) (x : α) :
    (dequeAppend capacity buffer x).length = min (buffer.length + 1) capacity := by
  unfold dequeAppend
  rw [List.length_drop]
  simp
  omega

/-- A fold of deque appends keeps exactly the last `capacity` elements of
the concatenation, in order. -/
theorem foldl_dequeAppend (capacity : ℕ) :
    ∀ (ts buffer : List α), buffer.length ≤ capacity →
      ts.foldl (dequeAppend capacity) buffer =
        (buffer ++ ts).drop ((buffer.length + ts.length) - capacity) := by
  intro ts
  induction ts with
  | nil =>
    intro b hb
    simp only [List.foldl_nil, List.append_nil, List.length_nil, Nat.add_zero]
    rw [show b.length - capacity = 0 by omega, List.drop_zero]
  | cons x xs ih =>
    intro b hb
    rw [List.foldl_cons,
      ih (dequeAppend capacity b x) (by rw [length_dequeAppend]; omega),
      length_dequeAppend]
    unfold dequeAppend
    rw [← List.drop_append_of_le_length (by simp), List.drop_drop,
      List.append_cons b x xs]
    congr 1
    simp
    omega

theorem pushAll_eq_foldl (capacity : ℕ) (buffer ts : List Transition) :
    pushAll capacity buffer ts = ts.foldl (dequeAppend capacity) buffer := rfl

/-- C5: the replay buffer never holds more than `capacity` transitions,
and pushing `capacity + k` transitions into an empty buffer leaves exactly
the `capacity` most recent ones, in order — the oldest `k` are evicted
first (ring-buffer semantics). -/
theorem c5_replay_ring_buffer (capacity k : ℕ) (ts xs : List Transition)
    (h : ts.length = capacity + k) :
    (pushAll capacity [] xs).length ≤ capacity ∧
    pushAll capacity [] ts = ts.drop k := by
  have hfold : ∀ l : List Transition,
      pushAll capacity [] l = l.drop (l.length - capacity) := by
    intro l
    rw [pushAll_eq_foldl, foldl_dequeAppend capacity l [] (by simp)]
    simp
  constructor
  · rw [hfold xs, List.length_drop]
    omega
  · rw [hfold ts, h]
    congr 1
    omega

/-- Witness for C5 with capacity 2 and three pushed transitions: the
oldest one is evicted, the two newest remain. -/
theorem c5_replay_ring_buffer_witness :
    (pushAll 2 [] [([0], 0, 0, [0], false), ([1], 1, 1, [1], false),
      ([2], 2, 2, [2], true)]).length ≤ 2 ∧
    pushAll 2 [] [([0], 0, 0, [0], false), ([1], 1, 1, [1], false),
        ([2], 2, 2, [2], true)] =
      [([0], 0, 0, [0], false), ([1], 1, 1, [1], false),
        ([2], 2, 2, [2], true)].drop 1 :=
  c5_replay_ring_buffer 2 1 _ _ rfl

/-! ## model.py : DQNAgent.select_action -/

/-- The scores after `q_values[0, ~action_mask] = -float('inf')`: entries
with a true mask keep their network score, entries with a false mask are
overwritten with `-inf` (the bottom element `⊥` of `WithBot ℚ`). -/
def maskedScores (q : Fin n → ℚ) (mask : Fin n → Bool) : Fin n → WithBot ℚ :=
  fun i => if mask i then (q i : WithBot ℚ) else ⊥

/-- Embedding of `torch.argmax` over the score vector: the first index
attaining the
maximum, obtained by a left-to-right scan. -/
def argmaxScore (f : Fin (n + 1) → WithBot ℚ) : Fin (n + 1) :=
  (List.finRange (n + 1)).foldl (fun b i => if f b < f i then i else b) 0

/-- Embedding of `DQNAgent.select_action`: `r` is the draw of
`random.random()`; when
`r > epsilon` the greedy branch takes the arg-max of the masked scores,
otherwise `random.choice` picks an element of the valid-action list
(modelled by the index `k` reduced modulo the list length). -/
def selectAction (r epsilon : ℚ) (q : Fin (n + 1) → ℚ)
    (mask : Fin (n + 1) → Bool) (k : ℕ) : Fin (n + 1) :=
  if epsilon < r then argmaxScore (maskedScores q mask)
  else
    let valid := (List.finRange (n + 1)).filter (fun i => mask i)
    valid.getD (k % valid.length) 0

/-- The left-to-right arg-max scan dominates its start value and every
scanned element. -/
theorem argmax_foldl_ge (f : Fin (n + 1) → WithBot ℚ) :
    ∀ (l : List (Fin (n + 1))) (b : Fin (n + 1)),
      f b ≤ f (l.foldl (fun b i => if f b < f i then i else b) b) ∧
      ∀ x ∈ l, f x ≤ f (l.foldl (fun b i => if f b < f i then i else b) b) := by
  intro l
  induction l with
  | nil => exact fun b => ⟨le_rfl, by simp⟩
  | cons y ys ih =>
    intro b
    simp only [List.foldl_cons]
    by_cases h : f b < f y
    · rw [if_pos h]
      refine ⟨le_trans (le_of_lt h) (ih y).1, ?_⟩
      intro x hx
      rcases List.mem_cons.mp hx with rfl | hx
      · exact (ih x).1
      · exact (ih y).2 x hx
    · rw [if_neg h]
      refine ⟨(ih b).1, ?_⟩
      intro x hx
      rcases List.mem_cons.mp hx with rfl | hx
      · exact le_trans (not_lt.mp h) (ih b).1
      · exact (ih b).2 x hx

/-- Whatever the exploration rate and the randomness, `select_action`
returns an action whose mask entry is true, provided the mask has one. -/
theorem selectAction_mask_true (r epsilon : ℚ) (q : Fin (n + 1) → ℚ)
    (mask : Fin (n + 1) → Bool) (k : ℕ) (h : ∃ i, mask i = true) :
    mask (selectAction r epsilon q mask k) = true := by
  obtain ⟨i0, hi0⟩ := h
  unfold selectAction
  split
  · by_contra hmask
    have hbot : maskedScores q mask (argmaxScore (maskedScores q mask)) = ⊥ := by
      unfold maskedScores
      rw [if_neg (by simpa using hmask)]
    have hle : maskedScores q mask i0 ≤
        maskedScores q mask (argmaxScore (maskedScores q mask)) :=
      (argmax_foldl_ge (maskedScores q mask) (List.finRange (n + 1)) 0).2
        i0 (List.mem_finRange i0)
    rw [hbot] at hle
    have hcoe : maskedScores q mask i0 = (q i0 : WithBot ℚ) := by
      unfold maskedScores
      rw [if_pos hi0]
    rw [hcoe] at hle
    exact WithBot.coe_ne_bot (le_bot_iff.mp hle)
  · dsimp only
    have hmem : i0 ∈ (List.finRange (n + 1)).filter (fun i => mask i) :=
      List.mem_filter.mpr ⟨List.mem_finRange i0, hi0⟩
    have hlen : 0 < ((List.finRange (n + 1)).filter (fun i => mask i)).length :=
      List.length_pos.mpr (List.ne_nil_of_mem hmem)
    have hidx : k % ((List.finRange (n + 1)).filter (fun i => mask i)).length <
        ((List.finRange (n + 1)).filter (fun i => mask i)).length :=
      Nat.mod_lt _ hlen
    rw [List.getD_eq_getElem _ _ hidx]
    exact (List.mem_filter.mp (List.getElem_mem hidx)).2

/-- C2: with `exploration_rate = 0`, for every state of the greedy scores
and any internal randomness, `select_action` returns an action whose mask
entry is true — masked actions are overwritten with `-inf` before the
arg-max and can never win. -/
theorem c2_select_action_legal (r : ℚ) (q : Fin (n + 1) → ℚ)
    (mask : Fin (n + 1) → Bool) (k : ℕ) (h : ∃ i, mask i = true) :
    mask (selectAction r 0 q mask k) = true :=
  selectAction_mask_true r 0 q mask k h

/-- Witness for C2: adversarial all-equal scores, a mask allowing only
action 3 of 19, exploration rate 0. -/
theorem c2_select_action_legal_witness :
    (fun i : Fin 19 => decide (i.val = 3))
      (selectAction (1/2) 0 (fun _ : Fin 19 => 0)
        (fun i : Fin 19 => decide (i.val = 3)) 0) = true :=
  c2_select_action_legal (1/2) (fun _ => 0) (fun i => decide (i.val = 3)) 0
    ⟨⟨3, by omega⟩, by decide⟩

/-! ## model.py : DQNAgent state and update_model -/

/-- The mutable state of a `DQNAgent`: the two parameter sets, the replay
buffer contents, and the fixed hyperparameters carried by the object. -/
structure AgentState where
  policyParams : List ℚ
  targetParams : List ℚ
  replayBuffer : List Transition
  batchSize : ℕ
  gamma : ℚ
  tau : ℚ

/-- Embedding of `DQNAgent.select_action` at the level of the whole agent
object.
`evalNet` is the opaque policy-network forward pass (a function of the
policy parameters and the flattened state).  The greedy branch runs under
`torch.no_grad()` and writes only to a local copy of the scores, so the
agent object is returned unchanged. -/
def selectActionOfAgent (evalNet : List ℚ → List ℚ → Fin (n + 1) → ℚ)
    (agent : AgentState) (state : List ℚ) (r epsilon : ℚ)
    (mask : Fin (n + 1) → Bool) (k : ℕ) : Fin (n + 1) × AgentState :=
  (selectAction r epsilon (evalNet agent.policyParams state) mask k, agent)

/-- C10: `select_action` is read-only on the agent: for every state,
exploration rate and nonempty mask it leaves the policy parameters, the
target parameters and the replay buffer contents unchanged, and the
returned action is legal. -/
theorem c10_select_action_read_only
    (evalNet : List ℚ → List ℚ → Fin (n + 1) → ℚ) (agent : AgentState)
    (state : List ℚ) (r epsilon : ℚ) (mask : Fin (n + 1) → Bool) (k : ℕ)
    (h : ∃ i, mask i = true) :
    (selectActionOfAgent evalNet agent state r epsilon mask k).2.policyParams =
      agent.policyParams ∧
    (selectActionOfAgent evalNet agent state r epsilon mask k).2.targetParams =
      agent.targetParams ∧
    (selectActionOfAgent evalNet agent state r epsilon mask k).2.replayBuffer =
      agent.replayBuffer ∧
    mask (selectActionOfAgent evalNet agent state r epsilon mask k).1 = true :=
  ⟨rfl, rfl, rfl, selectAction_mask_true r epsilon _ mask k h⟩

/-- Witness for C10 at a concrete agent and mask. -/
theorem c10_select_action_read_only_witness :
    (selectActionOfAgent (n := 18) (fun _ _ _ => 0)
        ⟨[1], [2], [], 1, 0, 0⟩ [0] (1/2) (1/4)
        (fun i => decide (i.val = 3)) 0).2.policyParams = [1] ∧
    (selectActionOfAgent (n := 18) (fun _ _ _ => 0)
        ⟨[1], [2], [], 1, 0, 0⟩ [0] (1/2) (1/4)
        (fun i => decide (i.val = 3)) 0).2.targetParams = [2] ∧
    (selectActionOfAgent (n := 18) (fun _ _ _ => 0)
        ⟨[1], [2], [], 1, 0, 0⟩ [0] (1/2) (1/4)
        (fun i => decide (i.val = 3)) 0).2.replayBuffer = [] ∧
    (fun i : Fin 19 => decide (i.val = 3))
      (selectActionOfAgent (n := 18) (fun _ _ _ => 0)
        ⟨[1], [2], [], 1, 0, 0⟩ [0] (1/2) (1/4)
        (fun i => decide (i.val = 3)) 0).1 = true :=
  c10_select_action_read_only (fun _ _ _ => 0) ⟨[1], [2], [], 1, 0, 0⟩
    [0] (1/2) (1/4) (fun i => decide (i.val = 3)) 0 ⟨⟨3, by omega⟩, by decide⟩

/-- Embedding of `DQNAgent._soft_update_target_net`: each target
parameter becomes
`tau * policy + (1 - tau) * target`, pairing the two parameter lists
positionally (`zip` truncates to the shorter list, exactly as in the
source). -/
def softUpdate (tau : ℚ) (target policy : List ℚ) : List ℚ :=
  List.zipWith (fun t p => tau * p + (1 - tau) * t) target policy

/-- Embedding of `DQNAgent.update_model`.  Here `sample` models
`random.sample` on the
buffer; `gradStep` models the whole torch training step (loss computation,
back-propagation and one optimizer step), returning the scalar loss and
the new policy parameters — the spec treats the function approximator as
an opaque differentiable mapping, and no claim depends on its internals.
If the buffer holds fewer transitions than the batch size the call returns
the no-update sentinel `none` and the agent unchanged; otherwise it trains
the policy parameters and then soft-updates the target parameters toward
the *new* policy parameters. -/
def updateModel (gradStep : List ℚ → List Transition → ℚ × List ℚ)
    (sample : List Transition → List Transition)
    (agent : AgentState) : Option ℚ × AgentState :=
  if agent.replayBuffer.length < agent.batchSize then (none, agent)
  else
    let res := gradStep agent.policyParams (sample agent.replayBuffer)
    (some res.1,
      { agent with
          policyParams := res.2,
          targetParams := softUpdate agent.tau agent.targetParams res.2 })

/-- C4: with fewer buffered transitions than the batch size,
`update_model` is a no-op: it returns the sentinel `none` and leaves the
policy parameters, target parameters and replay buffer untouched. -/
theorem c4_update_model_no_op (gradStep : List ℚ → List Transition → ℚ × List ℚ)
    (sample : List Transition → List Transition) (agent : AgentState)
    (h : agent.replayBuffer.length < agent.batchSize) :
    updateModel gradStep sample agent = (none, agent) ∧
    (updateModel gradStep sample agent).2.policyParams = agent.policyParams ∧
    (updateModel gradStep sample agent).2.targetParams = agent.targetParams ∧
    (updateModel gradStep sample agent).2.replayBuffer = agent.replayBuffer := by
  unfold updateModel
  rw [if_pos h]
  exact ⟨rfl, rfl, rfl, rfl⟩

/-- Witness for C4: an agent with an empty buffer and batch size 1. -/
theorem c4_update_model_no_op_witness :
    updateModel (fun p _ => (0, p)) (fun l => l) ⟨[1], [2], [], 1, 0, 0⟩ =
      (none, ⟨[1], [2], [], 1, 0, 0⟩) ∧
    (updateModel (fun p _ => (0, p)) (fun l => l)
      ⟨[1], [2], [], 1, 0, 0⟩).2.policyParams = [1] ∧
    (updateModel (fun p _ => (0, p)) (fun l => l)
      ⟨[1], [2], [], 1, 0, 0⟩).2.targetParams = [2] ∧
    (updateModel (fun p _ => (0, p)) (fun l => l)
      ⟨[1], [2], [], 1, 0, 0⟩).2.replayBuffer = [] :=
  c4_update_model_no_op (fun p _ => (0, p)) (fun l => l)
    ⟨[1], [2], [], 1, 0, 0⟩ (by norm_num)

/-- With `tau = 1` the soft update copies the policy parameters exactly
(when the two parameter lists have the same length, as two identical
network architectures do). -/
theorem softUpdate_tau_one :
    ∀ (target policy : List ℚ), target.length = policy.length →
      softUpdate 1 target policy = policy := by
  intro target
  induction target with
  | nil =>
    intro p hp
    cases p with
    | nil => rfl
    | cons b p' => simp at hp
  | cons a t ih =>
    intro p hp
    cases p with
    | nil => simp at hp
    | cons b p' =>
      unfold softUpdate at ih ⊢
      simp only [List.zipWith_cons_cons]
      rw [ih p' (by simpa using hp)]
      norm_num

/-- C6: every successful `update_model` ends with the soft update
`target ← tau * policy + (1 - tau) * target` against the freshly trained
policy parameters; for `tau = 1` the new target parameters equal the new
policy parameters exactly. -/
theorem c6_update_soft_updates_target
    (gradStep : List ℚ → List Transition → ℚ × List ℚ)
    (sample : List Transition → List Transition) (agent : AgentState)
    (h : agent.batchSize ≤ agent.replayBuffer.length)
    (hlen : agent.targetParams.length =
      (gradStep agent.policyParams (sample agent.replayBuffer)).2.length) :
    (updateModel gradStep sample agent).2.targetParams =
      softUpdate agent.tau agent.targetParams
        (updateModel gradStep sample agent).2.policyParams ∧
    (agent.tau = 1 →
      (updateModel gradStep sample agent).2.targetParams =
        (updateModel gradStep sample agent).2.policyParams) := by
  have hguard : ¬ (agent.replayBuffer.length < agent.batchSize) := not_lt.mpr h
  unfold updateModel
  rw [if_neg hguard]
  refine ⟨rfl, fun htau => ?_⟩
  dsimp only
  rw [htau]
  exact softUpdate_tau_one _ _ hlen

/-- Witness for C6: an agent with `tau = 1`, a one-transition buffer and
batch size 1; after the update the target parameters equal the policy
parameters. -/
theorem c6_update_soft_updates_target_witness :
    (updateModel (fun p _ => (0, p)) (fun l => l)
      ⟨[1, 2], [3, 4], [([0], 0, 0, [0], false)], 1, 0, 1⟩).2.targetParams =
      softUpdate 1 [3, 4]
        (updateModel (fun p _ => (0, p)) (fun l => l)
          ⟨[1, 2], [3, 4], [([0], 0, 0, [0], false)], 1, 0, 1⟩).2.policyParams ∧
    ((1 : ℚ) = 1 →
      (updateModel (fun p _ => (0, p)) (fun l => l)
        ⟨[1, 2], [3, 4], [([0], 0, 0, [0], false)], 1, 0, 1⟩).2.targetParams =
        (updateModel (fun p _ => (0, p)) (fun l => l)
          ⟨[1, 2], [3, 4], [([0], 0, 0, [0], false)], 1, 0, 1⟩).2.policyParams) :=
  c6_update_soft_updates_target (fun p _ => (0, p)) (fun l => l)
    ⟨[1, 2], [3, 4], [([0], 0, 0, [0], false)], 1, 0, 1⟩ (by norm_num) rfl

/-! ## diffuser_env.py : reward computation

The observation grid and the reward are real-valued (the float arithmetic
of the source is modelled by exact real arithmetic). -/

/-- Frame count `self.num_frames = 10`. -/
abbrev num_frames : ℕ := 10

/-- Channel count `num_channels = 3` (the constructor default used
throughout). -/
abbrev num_channels : ℕ := 3

/-- An observation: a `num_frames × num_channels` grid of magnitudes. -/
abbrev Observation := Fin num_frames → Fin num_channels → ℝ

/-- Embedding of `np.std` of one frame across its channels: the square
root of the
mean squared deviation from the mean (population standard deviation,
numpy's default `ddof = 0`). -/
noncomputable def frameStd (frame : Fin num_channels → ℝ) : ℝ :=
  Real.sqrt ((∑ j, (frame j - (∑ j', frame j') / (num_channels : ℝ)) ^ 2) /
    (num_channels : ℝ))

/-- Embedding of `DiffuserEnv._calculate_reward`: the mean over the
frames of the
reciprocal of (per-frame cross-channel standard deviation + 1e-6). -/
noncomputable def calculateReward (obs : Observation) : ℝ :=
  (∑ i, 1 / (frameStd (obs i) + 1e-6)) / (num_frames : ℝ)

/-- C7: when every frame has identical channels the per-frame standard
deviation is exactly 0, so the reward is exactly `1 / 1e-6 = 1e6`, its
maximum for the configured floor. -/
theorem c7_reward_identical_channels (obs : Observation)
    (h : ∀ i j j', obs i j = obs i j') :
    calculateReward obs = 1000000 := by
  have hstd : ∀ i, frameStd (obs i) = 0 := by
    intro i
    have hc : ∀ j, obs i j = obs i ⟨0, by norm_num⟩ := fun j => h i j _
    unfold frameStd
    have hmean : (∑ j', obs i j') / (num_channels : ℝ) =
        obs i ⟨0, by norm_num⟩ := by
      rw [Finset.sum_congr rfl (fun j _ => hc j), Finset.sum_const]
      simp
    rw [hmean]
    have hz : ∀ j ∈ Finset.univ, (obs i j - obs i ⟨0, by norm_num⟩) ^ 2 = 0 := by
      intro j _
      rw [hc j]
      ring
    rw [Finset.sum_congr rfl hz, Finset.sum_const]
    simp
  unfold calculateReward
  rw [Finset.sum_congr rfl (fun i _ => by rw [hstd i]), Finset.sum_const]
  simp
  norm_num

/-- Witness for C7 at the constant observation. -/
theorem c7_reward_identical_channels_witness :
    calculateReward (fun _ _ => 5) = 1000000 :=
  c7_reward_identical_channels (fun _ _ => 5) (fun _ _ _ => rfl)

/-- C8: permuting the channel axis of an observation leaves the reward
unchanged — the per-frame cross-channel standard deviation is symmetric
in the channels. -/
theorem c8_reward_channel_perm_invariant (obs : Observation)
    (σ : Equiv.Perm (Fin num_channels)) :
    calculateReward (fun i j => obs i (σ j)) = calculateReward obs := by
  unfold calculateReward
  congr 1
  refine Finset.sum_congr rfl fun i _ => ?_
  have hmean : (∑ j, obs i (σ j)) = ∑ j, obs i j := Equiv.sum_comp σ (obs i)
  have hdev : (∑ j, (obs i (σ j) - (∑ j', obs i j') / (num_channels : ℝ)) ^ 2)
      = ∑ j, (obs i j - (∑ j', obs i j') / (num_channels : ℝ)) ^ 2 :=
    Equiv.sum_comp σ
      (fun x => (obs i x - (∑ j', obs i j') / (num_channels : ℝ)) ^ 2)
  unfold frameStd
  dsimp only
  rw [hmean, hdev]

end Diffuser
